import Mathlib

/-!
Verification of the content-acquisition-and-rewrite pipeline.

Shallow embedding of:
- `ai-rewriter-service/src/scripts/rewrite-latest.js` (search, reference
  scraping, LLM dispatch with retry, reference-section post-validation,
  publishing);
- the Laravel `ScrapeBeyondChats` console command (page locator and
  article store loop);
- `ArticleController::store` together with the articles migrations
  (the external store's POST endpoint).

Network fetches, HTML parsing and LLM calls are modelled as oracle
parameters (functions supplied to each definition); everything the
programs compute from those responses is translated directly from the
source.
-/

namespace BlogPipeline

/-! ## String primitives

JavaScript's `String.prototype.includes`, `startsWith` and
`toLowerCase` modelled over the underlying character lists. -/

/-- Does `s` start with pattern `p`? (charwise prefix test). -/
def startsList : List Char → List Char → Bool
  | [], _ => true
  | _ :: _, [] => false
  | p :: ps, c :: cs => p = c && startsList ps cs

/-- Does the pattern `pat` occur contiguously anywhere in `s`?
Models JavaScript `s.includes(pat)` / PHP `strpos(s, pat) !== false`. -/
def hasSubList (pat : List Char) : List Char → Bool
  | [] => pat.isEmpty
  | c :: cs => startsList pat (c :: cs) || hasSubList pat cs

/-- JavaScript `s.includes(sub)`. -/
def includesSub (s sub : String) : Bool := hasSubList sub.data s.data

/-- JavaScript `s.startsWith(p)`. -/
def startsWithStr (s p : String) : Bool := startsList p.data s.data

/-- JavaScript `s.toLowerCase()`, charwise (ASCII). -/
def toLowerCase (s : String) : String := String.mk (s.data.map Char.toLower)

/-! ## Reference-URL filtering (`rewrite-latest.js`) -/

/-- From `rewrite-latest.js` lines 109-115 (`isBeyondChatsUrl`).
A JavaScript string is falsy exactly when it is empty, so
`if (!url) return false` becomes the emptiness test. -/
def isBeyondChatsUrl (url : String) : Bool :=
  if url = "" then false
  else
    let urlLower := toLowerCase url
    includesSub urlLower "beyondchats.com" || includesSub urlLower "beyondchats" ||
      includesSub urlLower "www.beyondchats.com"

/-- A reference article as assembled by `scrapeReferenceArticles`. -/
structure RefArticle where
  url : String
  title : String
  content : String
deriving DecidableEq

/-- From `rewrite-latest.js` lines 310-349 (`scrapeReferenceArticles`).
`scrape url` abstracts the HTTP fetch plus `scrapeArticle`, returning
`some (title, content)` on success and `none` when the fetch or the
extraction throws. -/
def scrapeReferenceArticles (scrape : String → Option (String × String))
    (urls : List String) : List RefArticle :=
  let filteredUrls :=
    (urls.filter fun url =>
      url != "" && !isBeyondChatsUrl url &&
        (includesSub url "/blog/" || includesSub url "/article/" ||
          includesSub url "/post/")).take 2
  filteredUrls.foldl
    (fun acc url =>
      match scrape url with
      | some (t, c) =>
          if c.length > 100 then
            acc ++ [{ url := url, title := if t = "" then "Untitled Article" else t,
                      content := c }]
          else acc
      | none => acc)
    []

/-! ## ReferenceSearchProvider (`rewrite-latest.js`) -/

/-- From `rewrite-latest.js` lines 165-182 (`searchWithSerpAPI`).
`links` are the `link` fields of the organic results, a missing field
modelled as `""`.  The JavaScript loop pushes a qualifying URL and
breaks once two are collected. -/
def searchWithSerpAPI (links : List String) : List String :=
  links.foldl
    (fun urls url =>
      if urls.length ≥ 2 then urls
      else if url != "" && !isBeyondChatsUrl url && !includesSub url "google.com" &&
          !includesSub url "youtube.com" &&
          (includesSub url "/blog/" || includesSub url "/article/" ||
            includesSub url "/post/") then
        urls ++ [url]
      else urls)
    []

/-- Does the segment at the head of the list match the date pattern
of the regex `\/\d{4}\/\d{2}\//`? -/
def dateSegAt : List Char → Bool
  | '/' :: a :: b :: c :: d :: '/' :: e :: f :: '/' :: _ =>
      a.isDigit && b.isDigit && c.isDigit && d.isDigit && e.isDigit && f.isDigit
  | _ => false

/-- Does the char list contain a `/dddd/dd/` date segment anywhere? -/
def hasDatePathList : List Char → Bool
  | [] => false
  | c :: cs => dateSegAt (c :: cs) || hasDatePathList cs

/-- JavaScript `cleanUrl.match(/\/\d{4}\/\d{2}\//)` used as a condition. -/
def hasDatePath (s : String) : Bool := hasDatePathList s.data

/-- From `rewrite-latest.js` lines 222-240: unwrap DuckDuckGo redirect
hrefs and force an absolute URL.  `decodeRedirect` abstracts the
`decodeURIComponent`-based extraction of the `uddg=` parameter (a
JavaScript builtin applied only when the href contains `uddg=`). -/
def cleanHref (decodeRedirect : String → String) (href : String) : String :=
  let c := if includesSub href "uddg=" then decodeRedirect href else href
  if startsWithStr c "http" then c else "https://" ++ c

/-- The filter of the first DuckDuckGo extraction phase
(`rewrite-latest.js` lines 243-249). -/
def ddgQualifies (u : String) : Bool :=
  !isBeyondChatsUrl u && !includesSub u "duckduckgo.com" && !includesSub u "google.com" &&
    (includesSub u "/blog/" || includesSub u "/article/" || includesSub u "/post/" ||
      hasDatePath u)

/-- One `$(selector).each(...)` pass (`rewrite-latest.js` lines 216-255):
iterate the matched hrefs, stop once two URLs are collected, skip empty
hrefs, clean, filter and deduplicate. -/
def ddgSelectorPass (decodeRedirect : String → String) (urls : List String)
    (hrefs : List String) : List String :=
  hrefs.foldl
    (fun acc href =>
      if acc.length ≥ 2 then acc
      else if href = "" then acc
      else
        let c := cleanHref decodeRedirect href
        if ddgQualifies c && !acc.contains c then acc ++ [c] else acc)
    urls

/-- The selector cascade of `searchWithDuckDuckGo`: after each selector
the loop breaks only when `urls.length >= 2`. -/
def ddgCascade (decodeRedirect : String → String) :
    List (List String) → List String → List String
  | [], urls => urls
  | sel :: rest, urls =>
      let urls2 := ddgSelectorPass decodeRedirect urls sel
      if urls2.length ≥ 2 then urls2 else ddgCascade decodeRedirect rest urls2

/-- The filter of the second (`.result`) extraction phase
(`rewrite-latest.js` lines 279-281); note it checks neither
`google.com` nor the date pattern. -/
def ddgResultQualifies (u : String) : Bool :=
  !isBeyondChatsUrl u && !includesSub u "duckduckgo.com" &&
    (includesSub u "/blog/" || includesSub u "/article/" || includesSub u "/post/")

/-- The `.result` fallback pass (`rewrite-latest.js` lines 261-288),
run only when fewer than two URLs were collected; `links` are the first
anchor hrefs of each result block. -/
def ddgFallbackPass (decodeRedirect : String → String) (urls : List String)
    (links : List String) : List String :=
  links.foldl
    (fun acc link =>
      if acc.length ≥ 2 then acc
      else if link = "" then acc
      else
        let c := cleanHref decodeRedirect link
        if ddgResultQualifies c && !acc.contains c then acc ++ [c] else acc)
    urls

/-- From `rewrite-latest.js` lines 192-299 (`searchWithDuckDuckGo`):
selector cascade, optional `.result` fallback, then `urls.slice(0, 2)`.
`selectorHrefs` lists, per selector of `linkSelectors`, the hrefs its
matches produce on the fetched results page. -/
def searchWithDuckDuckGo (decodeRedirect : String → String)
    (selectorHrefs : List (List String)) (fallbackLinks : List String) : List String :=
  let urls := ddgCascade decodeRedirect selectorHrefs []
  let urls2 :=
    if urls.length < 2 then ddgFallbackPass decodeRedirect urls fallbackLinks else urls
  urls2.take 2

/-! ## RewriteOrchestrator (`rewrite-latest.js`, `rewriteWithLLM`) -/

/-- A source article as served by `GET /api/articles/latest`. -/
structure SourceArticle where
  id : Nat
  title : String
  content : String
deriving DecidableEq

/-- One entry of the reference summary block of the prompt
(`rewrite-latest.js` lines 476-483). -/
def referenceSummaryEntry (p : Nat × RefArticle) : String :=
  "Reference Article " ++ Nat.repr (p.1 + 1) ++ ":\nTitle: " ++ p.2.title ++
    "\nURL: " ++ p.2.url ++ "\nContent Sample: " ++
    String.mk (p.2.content.data.take 800) ++ "..."

/-- `references.map(...).join('\n\n---\n\n')`. -/
def referenceSummary (refs : List RefArticle) : String :=
  String.intercalate "\n\n---\n\n" (refs.enum.map referenceSummaryEntry)

/-- The numbered URL list embedded near the end of the prompt
(`rewrite-latest.js` line 510). -/
def promptRefUrlList (refs : List RefArticle) : String :=
  String.intercalate "\n" (refs.enum.map fun p => Nat.repr (p.1 + 1) ++ ". " ++ p.2.url)

/-- The rewrite prompt of `rewriteWithLLM` (`rewrite-latest.js` lines
485-512). -/
def buildPrompt (a : SourceArticle) (refs : List RefArticle) : String :=
  "You are an expert content writer and SEO specialist. Your task is to rewrite the following article to improve its quality, formatting, and match the style of top-ranking articles on Google.\n\nINSTRUCTIONS:\n1. Analyze the writing style, tone, and formatting of the reference articles\n2. Rewrite the original article to match that style while preserving all key information\n3. Improve formatting with proper headings, paragraphs, and structure\n4. Use original phrasing - DO NOT copy sentences from reference articles\n5. Maintain the original article's intent and core message\n6. Make the content more engaging and professional\n7. Add a \"References\" section at the very bottom with proper citations\n\nOriginal Article to Rewrite:\nTitle: " ++
    a.title ++ "\n\nContent:\n" ++ a.content ++
    "\n\nReference Articles (Study their style, tone, and formatting):\n" ++
    referenceSummary refs ++
    "\n\nIMPORTANT:\n- The rewritten article must be original and not plagiarized\n- Match the professional tone and formatting style of the reference articles\n- Preserve all important information from the original article\n- Add a \"References\" section at the end with these URLs:\n" ++
    promptRefUrlList refs ++ "\n\nNow rewrite the article:"

/-- One line of the appended references block
(`rewrite-latest.js` line 528): `i+1. [title](url)`. -/
def refLine (p : Nat × RefArticle) : String :=
  Nat.repr (p.1 + 1) ++ ". [" ++ p.2.title ++ "](" ++ p.2.url ++ ")"

/-- The references block appended by the post-validation step:
`references.map((ref, i) => ...).join('\n')`. -/
def refLines (refs : List RefArticle) : String :=
  String.intercalate "\n" (refs.enum.map refLine)

/-- The post-validation step of `rewriteWithLLM` (`rewrite-latest.js`
lines 526-529): append a references block only when the returned text
does not contain the substring `references` (case-insensitively). -/
def ensureReferences (refs : List RefArticle) (rewrittenContent : String) : String :=
  if includesSub (toLowerCase rewrittenContent) "references" then rewrittenContent
  else rewrittenContent ++ "\n\n## References\n\n" ++ refLines refs

/-- `rewriteWithLLM` (`rewrite-latest.js` lines 473-535): build the
prompt, dispatch to the configured generation backend (abstracted as
`backend`, a function from prompt to returned text), then post-validate
the references section. -/
def rewriteWithLLM (backend : String → String) (a : SourceArticle)
    (refs : List RefArticle) : String :=
  ensureReferences refs (backend (buildPrompt a refs))

/-! ## Generation backends and the retry policy

Each backend is driven by an oracle `responses : Nat → LLMResponse`
giving the outcome of its n-th HTTP request.  The observable behaviour
of a call is the returned text or propagated error, the number of HTTP
requests made, and the list of backoff delays slept (ms). -/

/-- Outcome of one HTTP request to a generation backend. -/
inductive LLMResponse where
  | ok (text : String)
  | rateLimited
  | otherFailure
deriving DecidableEq

/-- Error propagated out of a backend call. -/
inductive LLMErr where
  | rateLimited
  | otherFailure
  | exhausted
deriving DecidableEq

/-- Observable behaviour of one backend call. -/
structure LLMOutcome where
  result : Except LLMErr String
  attempts : Nat
  delays : List Nat

/-- The retry loop of `rewriteWithGoogleGemini` (`rewrite-latest.js`
lines 550-583), from loop index `i`: on HTTP 429 with retries left,
sleep `2^i * 10000` ms and continue; on the final attempt the 429
propagates; any other failure propagates immediately.  The fallthrough
(`i ≥ retries`) is unreachable for `retries ≥ 1` and models the
JavaScript `undefined` return. -/
def rewriteWithGoogleGeminiFrom (responses : Nat → LLMResponse) (retries i : Nat) :
    LLMOutcome :=
  if _h : i < retries then
    match responses i with
    | .ok t => { result := .ok t, attempts := 1, delays := [] }
    | .rateLimited =>
        if i < retries - 1 then
          let rest := rewriteWithGoogleGeminiFrom responses retries (i + 1)
          { result := rest.result, attempts := rest.attempts + 1,
            delays := 2 ^ i * 10000 :: rest.delays }
        else { result := .error .rateLimited, attempts := 1, delays := [] }
    | .otherFailure => { result := .error .otherFailure, attempts := 1, delays := [] }
  else { result := .error .exhausted, attempts := 0, delays := [] }
termination_by retries - i

/-- `rewriteWithGoogleGemini(prompt, retries = 3)`. -/
def rewriteWithGoogleGemini (responses : Nat → LLMResponse) (retries : Nat := 3) :
    LLMOutcome :=
  rewriteWithGoogleGeminiFrom responses retries 0

/-- `rewriteWithOpenAI` (`rewrite-latest.js` lines 537-548): a single
API request, no retry loop — every failure, rate limit included,
propagates immediately. -/
def rewriteWithOpenAI (responses : Nat → LLMResponse) : LLMOutcome :=
  match responses 0 with
  | .ok t => { result := .ok t, attempts := 1, delays := [] }
  | .rateLimited => { result := .error .rateLimited, attempts := 1, delays := [] }
  | .otherFailure => { result := .error .otherFailure, attempts := 1, delays := [] }

/-- `rewriteWithOllama` (`rewrite-latest.js` lines 585-597): likewise a
single request with no retry loop. -/
def rewriteWithOllama (responses : Nat → LLMResponse) : LLMOutcome :=
  match responses 0 with
  | .ok t => { result := .ok t, attempts := 1, delays := [] }
  | .rateLimited => { result := .error .rateLimited, attempts := 1, delays := [] }
  | .otherFailure => { result := .error .otherFailure, attempts := 1, delays := [] }

/-! ## The article store (`ArticleController` + migrations)

A row of the `articles` table, as created by the two migrations:
`version` defaults to `original`, `is_rewritten` defaults to `false`,
`slug` is set by the scraping command and absent from the API
validation rules. -/

structure StoreArticle where
  id : Nat
  title : String
  slug : Option String
  content : String
  source_url : Option String
  version : String
  is_rewritten : Bool
  parent_article_id : Option Nat
  references : List String
  published_at : Option String
deriving DecidableEq

/-- Payload of `POST /api/articles` after JSON decoding. -/
structure StoreRequest where
  title : String
  content : String
  source_url : Option String
  version : String
  parent_article_id : Option Nat
  references : List String
  published_at : Option String
deriving DecidableEq

/-- The validator of `ArticleController::store` (lines 97-106).
`validUrl` abstracts Laravel's `url` rule and `validDate` its `date`
rule; uniqueness of `source_url` and existence of the parent are
checked against the current table. -/
def validateStore (validUrl validDate : String → Bool) (db : List StoreArticle)
    (r : StoreRequest) : Bool :=
  r.title != "" && decide (r.title.length ≤ 255) && r.content != "" &&
    (match r.source_url with
     | none => true
     | some u => validUrl u && db.all fun a => a.source_url != some u) &&
    (r.version == "original" || r.version == "rewritten") &&
    (match r.parent_article_id with
     | none => true
     | some pid => db.any fun a => a.id == pid) &&
    r.references.all validUrl &&
    (match r.published_at with
     | none => true
     | some d => validDate d)

/-- Largest id present in the table. -/
def maxId (db : List StoreArticle) : Nat := db.foldr (fun a m => max a.id m) 0

/-- Laravel's auto-increment primary key, modelled as one more than the
largest id present. -/
def freshId (db : List StoreArticle) : Nat := maxId db + 1

/-- The row created by `Article::create($validator->validated())` in
`ArticleController::store`: columns absent from the payload take their
migration defaults. -/
def newStoreArticle (db : List StoreArticle) (r : StoreRequest) : StoreArticle :=
  { id := freshId db, title := r.title, slug := none, content := r.content,
    source_url := r.source_url, version := r.version, is_rewritten := false,
    parent_article_id := r.parent_article_id, references := r.references,
    published_at := r.published_at }

/-- `ArticleController::store` (lines 95-129): validate (422 modelled as
`Except.error`), create the row, and when the new row is a rewritten
version with a truthy `parent_article_id` (PHP truthiness: non-null and
non-zero), set the parent's `is_rewritten` flag.  `Article::find`
followed by `update` touches the row keyed by the primary id; ids are
unique in every reachable table. -/
def storePost (validUrl validDate : String → Bool) (db : List StoreArticle)
    (r : StoreRequest) : Except Unit (List StoreArticle × Nat) :=
  if validateStore validUrl validDate db r then
    let db1 := db ++ [newStoreArticle db r]
    let db2 :=
      if r.version == "rewritten" then
        match r.parent_article_id with
        | some pid =>
            if pid != 0 then
              db1.map fun a => if a.id = pid then { a with is_rewritten := true } else a
            else db1
        | none => db1
      else db1
    Except.ok (db2, freshId db)
  else Except.error ()

/-! ## The rewrite job (`rewriteLatest`) -/

/-- Result classification of one run of `rewriteLatest`. -/
inductive RunOutcome where
  | noArticles
  | noRefs
  | published (originalId rewrittenId : Nat)
  | publishFailed
deriving DecidableEq

/-- Observable behaviour of one run of `rewriteLatest`:
its outcome, the number of generation-backend dispatches, and the
store's table after the run. -/
structure RunResult where
  outcome : RunOutcome
  backendCalls : Nat
  db : List StoreArticle
deriving DecidableEq

/-- The publish payload built at `rewrite-latest.js` lines 83-89. -/
def rewriteRequest (a : SourceArticle) (refs : List RefArticle)
    (backend : String → String) : StoreRequest :=
  { title := a.title ++ " (Rewritten)", content := rewriteWithLLM backend a refs,
    source_url := none, version := "rewritten", parent_article_id := some a.id,
    references := refs.map (·.url), published_at := none }

/-- `rewriteLatest` (`rewrite-latest.js` lines 49-101): fetch the latest
unrewritten article (`latest`, an oracle for the store's endpoint),
search (`searchResults`, the URLs the configured search strategy
returned), scrape the references, bail out when none were scraped,
otherwise rewrite via the generation backend and publish through
`POST /api/articles`. -/
def rewriteLatest (validUrl validDate : String → Bool) (db : List StoreArticle)
    (latest : Option SourceArticle) (searchResults : List String)
    (scrape : String → Option (String × String)) (backend : String → String) :
    RunResult :=
  match latest with
  | none => { outcome := .noArticles, backendCalls := 0, db := db }
  | some article =>
      let refs := scrapeReferenceArticles scrape searchResults
      if refs = [] then { outcome := .noRefs, backendCalls := 0, db := db }
      else
        match storePost validUrl validDate db (rewriteRequest article refs backend) with
        | .ok (db2, newId) =>
            { outcome := .published article.id newId, backendCalls := 1, db := db2 }
        | .error _ => { outcome := .publishFailed, backendCalls := 1, db := db }

/-! ## PageLocator (`ScrapeBeyondChats::handle`, steps 1-3)

`pages` is the oracle mapping a page index to the (ordered, per-page
deduplicated) article URLs `getArticleUrlsFromPage` extracts from it. -/

/-- One iteration body of the collection loop (part_000 lines 87-101):
take the last `needed` links of the page and append those not already
collected while fewer than `target` are held. -/
def addFromPage (target : Nat) (acc : List String) (pageArticles : List String) :
    List String :=
  let needed := target - acc.length
  if needed > 0 then
    (pageArticles.drop (pageArticles.length - needed)).foldl
      (fun a url =>
        if !a.contains url && decide (a.length < target) then a ++ [url] else a)
      acc
  else acc

/-- The `while (count < target && currentPage >= 1)` loop of
`ScrapeBeyondChats::handle` (part_000 lines 71-109), walking the page
index downward; a page yielding no articles is merely skipped. -/
def locateLoop (pages : Nat → List String) (target : Nat) :
    Nat → List String → List String
  | 0, acc => acc
  | p + 1, acc =>
      if acc.length < target then
        let pageArticles := pages (p + 1)
        if pageArticles = [] then locateLoop pages target p acc
        else
          let acc2 := addFromPage target acc pageArticles
          if acc2.length < target then locateLoop pages target p acc2 else acc2
      else acc

/-- `locateBatch`: collect from `lastPage` downward, then
`array_slice($articleUrls, 0, $targetCount)` (part_000 line 117). -/
def locateBatch (pages : Nat → List String) (lastPage target : Nat) : List String :=
  (locateLoop pages target lastPage []).take target

/-! ## Acquisition store loop (`ScrapeBeyondChats::handle`, step 4) -/

/-- Result of `ScrapeBeyondChats::scrapeArticle` on success. -/
structure ScrapedData where
  title : String
  content : String
  published_at : Option String
deriving DecidableEq

/-- The candidate slugs tried by `generateUniqueSlug` (part_000 lines
513-524): the base slug itself, then `base-1`, `base-2`, ... -/
def slugCandidate (base : String) : Nat → String
  | 0 => base
  | n + 1 => base ++ "-" ++ Nat.repr (n + 1)

/-- Length of the longest string in the list. -/
def maxStrLen (l : List String) : Nat := l.foldr (fun s m => max s.length m) 0

/-- Index of the first free candidate at or after `n`, searching at
most `fuel` further candidates. -/
def firstFreeFrom (taken : List String) (base : String) : Nat → Nat → Nat
  | n, 0 => n
  | n, fuel + 1 =>
      if slugCandidate base n ∈ taken then firstFreeFrom taken base (n + 1) fuel
      else n

/-- The `while (Article::where('slug', $slug)->exists())` loop of
`generateUniqueSlug`: return the first candidate slug not yet taken.
The PHP loop is unbounded; the search bound used here provably covers
the first free candidate (`generateUniqueSlug_fresh` below), because a
candidate whose numeral is longer than every taken slug cannot
collide. -/
def generateUniqueSlug (taken : List String) (base : String) : String :=
  slugCandidate base (firstFreeFrom taken base 0 (10 ^ maxStrLen taken + 1))

/-- `Article::where('source_url', $url)->exists()`. -/
def hasSourceUrl (db : List StoreArticle) (url : String) : Bool :=
  db.any fun a => a.source_url == some url

/-- The per-URL body of the store loop in `ScrapeBeyondChats::handle`
(part_000 lines 124-170), threading `(table, scraped, skipped)`:
skip URLs already stored (by `source_url`), skip fetch/extraction
failures, generate a unique slug, double-check it, then create the
row as version `original`.  `slugify` abstracts Laravel `Str::slug`
and `nowTime` abstracts `now()`.  The `QueryException` duplicate
handler is unreachable here because both uniqueness checks precede the
insert. -/
def acquireStep (slugify : String → String) (nowTime : String)
    (scrape : String → Option ScrapedData) (st : List StoreArticle × Nat × Nat)
    (url : String) : List StoreArticle × Nat × Nat :=
  let db := st.1
  let scraped := st.2.1
  let skipped := st.2.2
  if hasSourceUrl db url then (db, scraped, skipped + 1)
  else
    match scrape url with
    | none => (db, scraped, skipped)
    | some d =>
        let slug := generateUniqueSlug (db.filterMap (·.slug)) (slugify d.title)
        if db.any fun a => a.slug == some slug then (db, scraped, skipped + 1)
        else
          (db ++ [{ id := freshId db, title := d.title, slug := some slug,
                    content := d.content, source_url := some url,
                    version := "original", is_rewritten := false,
                    parent_article_id := none, references := [],
                    published_at := some (d.published_at.getD nowTime) }],
            scraped + 1, skipped)

/-- The store loop over the collected candidate URLs. -/
def acquireRun (slugify : String → String) (nowTime : String)
    (db : List StoreArticle) (urls : List String)
    (scrape : String → Option ScrapedData) : List StoreArticle × Nat × Nat :=
  urls.foldl (acquireStep slugify nowTime scrape) (db, 0, 0)

/-- One full acquisition job (`ScrapeBeyondChats::handle`): locate the
batch of 5 candidate URLs, then run the store loop over them. -/
def acquisitionJob (slugify : String → String) (nowTime : String)
    (pages : Nat → List String) (lastPage : Nat) (db : List StoreArticle)
    (scrape : String → Option ScrapedData) : List StoreArticle × Nat × Nat :=
  acquireRun slugify nowTime db (locateBatch pages lastPage 5) scrape

/-! ## ContentExtractor title cleanup -/

/-- JavaScript `String.prototype.trim`: drop whitespace at both ends. -/
def trimChars (s : List Char) : List Char :=
  ((s.dropWhile Char.isWhitespace).reverse.dropWhile Char.isWhitespace).reverse

/-- The title cleanup of `scrapeArticle` (`rewrite-latest.js` lines 391
and 397): `title.split('|')[0].split('-')[0].trim()` — keep the text
before the first pipe, then before the first hyphen, then trim. -/
def stripSiteName (title : String) : String :=
  String.mk
    (trimChars ((title.data.takeWhile fun c => c != '|').takeWhile fun c => c != '-'))

/-- The PHP `<title>` fallback cleanup (part_000 line 447):
`preg_replace('/\s*[-|]\s*.*$/', '', $title)` — remove everything from
the first hyphen or pipe onward together with the run of whitespace
immediately before it. -/
def stripSiteNamePhp (title : String) : String :=
  String.mk
    (((title.data.takeWhile fun c => c != '-' && c != '|').reverse.dropWhile
        Char.isWhitespace).reverse)

/-! ## Substring lemmas -/

theorem startsList_of_append_pat (p q : List Char) :
    ∀ s, startsList (p ++ q) s = true → startsList p s = true := by
  induction p with
  | nil => intro s _; rfl
  | cons a ps ih =>
    intro s h
    cases s with
    | nil => simp [startsList] at h
    | cons c cs =>
      simp only [List.cons_append, startsList, Bool.and_eq_true] at h ⊢
      exact ⟨h.1, ih cs h.2⟩

theorem hasSubList_of_startsList (p : List Char) :
    ∀ s, startsList p s = true → hasSubList p s = true := by
  intro s
  cases s with
  | nil =>
    intro h
    cases p with
    | nil => rfl
    | cons a ps => simp [startsList] at h
  | cons c cs => intro h; simp [hasSubList, h]

theorem hasSubList_of_pat_append_left (p q : List Char) :
    ∀ s, hasSubList (p ++ q) s = true → hasSubList p s = true := by
  intro s
  induction s with
  | nil =>
    intro h
    simp only [hasSubList, List.isEmpty_eq_true, List.append_eq_nil] at h
    simp [hasSubList, h.1]
  | cons c cs ih =>
    intro h
    simp only [hasSubList, Bool.or_eq_true] at h ⊢
    rcases h with h | h
    · exact Or.inl (startsList_of_append_pat p q _ h)
    · exact Or.inr (ih h)

theorem hasSubList_of_startsList_append (r p : List Char) :
    ∀ s, startsList (r ++ p) s = true → hasSubList p s = true := by
  induction r with
  | nil => intro s h; exact hasSubList_of_startsList p s h
  | cons a rs ih =>
    intro s h
    cases s with
    | nil => simp [startsList] at h
    | cons c cs =>
      simp only [List.cons_append, startsList, Bool.and_eq_true] at h
      have := ih cs h.2
      simp [hasSubList, this]

theorem hasSubList_of_pat_append_right (r p : List Char) :
    ∀ s, hasSubList (r ++ p) s = true → hasSubList p s = true := by
  intro s
  induction s with
  | nil =>
    intro h
    simp only [hasSubList, List.isEmpty_eq_true, List.append_eq_nil] at h
    simp [hasSubList, h.2]
  | cons c cs ih =>
    intro h
    simp only [hasSubList, Bool.or_eq_true] at h
    rcases h with h | h
    · exact hasSubList_of_startsList_append r p _ h
    · have h2 := ih h
      simp [hasSubList, h2]

theorem includes_bc_of_bc_com (s : String) :
    includesSub s "beyondchats.com" = true → includesSub s "beyondchats" = true := by
  intro h
  have hd : ("beyondchats.com").data = ("beyondchats").data ++ (".com").data := by decide
  unfold includesSub at h ⊢
  rw [hd] at h
  exact hasSubList_of_pat_append_left _ _ _ h

theorem includes_bc_of_www (s : String) :
    includesSub s "www.beyondchats.com" = true → includesSub s "beyondchats" = true := by
  intro h
  have hd : ("www.beyondchats.com").data = ("www.").data ++ ("beyondchats.com").data := by
    decide
  unfold includesSub at h
  have h2 : hasSubList ("beyondchats.com").data s.data = true := by
    rw [hd] at h
    exact hasSubList_of_pat_append_right _ _ _ h
  exact includes_bc_of_bc_com s h2

/-- The three substring tests of `isBeyondChatsUrl` collapse to the
middle one: a URL is classified as a BeyondChats URL exactly when its
lowercasing contains `beyondchats`. -/
theorem isBeyondChatsUrl_eq (u : String) :
    isBeyondChatsUrl u = includesSub (toLowerCase u) "beyondchats" := by
  by_cases hu : u = ""
  · subst hu; decide
  · simp only [isBeyondChatsUrl, hu, if_false]
    cases hB : includesSub (toLowerCase u) "beyondchats" with
    | true => simp [hB]
    | false =>
      have hA : includesSub (toLowerCase u) "beyondchats.com" = false := by
        cases hA : includesSub (toLowerCase u) "beyondchats.com" with
        | true => rw [includes_bc_of_bc_com _ hA] at hB; exact hB
        | false => rfl
      have hC : includesSub (toLowerCase u) "www.beyondchats.com" = false := by
        cases hC : includesSub (toLowerCase u) "www.beyondchats.com" with
        | true => rw [includes_bc_of_www _ hC] at hB; exact hB
        | false => rfl
      simp [hA, hB, hC]

/-- Every reference assembled by `scrapeReferenceArticles` has a URL
that passed the BeyondChats filter. -/
theorem scrapeRefs_not_beyondchats (scrape : String → Option (String × String))
    (urls : List String) (r : RefArticle) :
    r ∈ scrapeReferenceArticles scrape urls → isBeyondChatsUrl r.url = false := by
  intro hr
  unfold scrapeReferenceArticles at hr
  set pred : String → Bool := fun url =>
    url != "" && !isBeyondChatsUrl url &&
      (includesSub url "/blog/" || includesSub url "/article/" ||
        includesSub url "/post/") with hpred
  have hfil : ∀ u ∈ (urls.filter pred).take 2, isBeyondChatsUrl u = false := by
    intro u hu
    have hmem := List.mem_of_mem_take hu
    have := List.of_mem_filter hmem
    rw [hpred] at this
    simp only [Bool.and_eq_true, Bool.not_eq_true'] at this
    exact this.1.2
  have key : ∀ (l : List String), (∀ u ∈ l, isBeyondChatsUrl u = false) →
      ∀ (acc : List RefArticle), (∀ x ∈ acc, isBeyondChatsUrl x.url = false) →
      ∀ x ∈ l.foldl
        (fun acc url =>
          match scrape url with
          | some (t, c) =>
              if c.length > 100 then
                acc ++ [{ url := url, title := if t = "" then "Untitled Article" else t,
                          content := c }]
              else acc
          | none => acc) acc, isBeyondChatsUrl x.url = false := by
    intro l
    induction l with
    | nil => intro _ acc hacc x hx; exact hacc x hx
    | cons u l ih =>
      intro hl acc hacc x hx
      simp only [List.foldl_cons] at hx
      refine ih (fun v hv => hl v (List.mem_cons_of_mem u hv)) _ ?_ x hx
      intro y hy
      rcases hscr : scrape u with _ | ⟨t, c⟩ <;> simp only [hscr] at hy
      · exact hacc y hy
      · by_cases hlen : c.length > 100
        · rw [if_pos hlen] at hy
          rcases List.mem_append.1 hy with hy2 | hy2
          · exact hacc y hy2
          · simp only [List.mem_singleton] at hy2
            subst hy2
            exact hl u (List.mem_cons_self u l)
        · rw [if_neg hlen] at hy
          exact hacc y hy
  exact key _ hfil [] (by intro x hx; cases hx) r hr

/-- C10: `isBeyondChatsUrl u` holds exactly when the lowercased URL
contains the substring `beyondchats` anywhere (host or path), and no
reference produced by `scrapeReferenceArticles` has such a URL. -/
theorem c10_beyondchats_substring :
    (∀ u : String, isBeyondChatsUrl u = includesSub (toLowerCase u) "beyondchats") ∧
    (∀ (scrape : String → Option (String × String)) (urls : List String)
        (r : RefArticle), r ∈ scrapeReferenceArticles scrape urls →
        includesSub (toLowerCase r.url) "beyondchats" = false) := by
  refine ⟨isBeyondChatsUrl_eq, ?_⟩
  intro scrape urls r hr
  rw [← isBeyondChatsUrl_eq]
  exact scrapeRefs_not_beyondchats scrape urls r hr

/-- Witness for C10 at concrete inputs. -/
theorem c10_witness :
    isBeyondChatsUrl "https://news.example/why-beyondchats-won" =
      includesSub (toLowerCase "https://news.example/why-beyondchats-won") "beyondchats" ∧
    ({ url := "https://a.example/blog/x", title := "T",
       content := String.mk (List.replicate 101 'x') } : RefArticle) ∈
      scrapeReferenceArticles (fun _ => some ("T", String.mk (List.replicate 101 'x')))
        ["https://a.example/blog/x"] ∧
    includesSub (toLowerCase "https://a.example/blog/x") "beyondchats" = false := by
  refine ⟨c10_beyondchats_substring.1 _, ?_, ?_⟩
  · decide
  · exact c10_beyondchats_substring.2
      (fun _ => some ("T", String.mk (List.replicate 101 'x')))
      ["https://a.example/blog/x"]
      { url := "https://a.example/blog/x", title := "T",
        content := String.mk (List.replicate 101 'x') }
      (by decide)

/-! ## C1: the references post-validation -/

theorem url_sublist_refLine (p : Nat × RefArticle) :
    List.Sublist p.2.url.data (refLine p).data := by
  unfold refLine
  simp only [String.data_append]
  exact (List.sublist_append_right _ _).trans (List.sublist_append_left _ _)

theorem go_sublist (ps : List (Nat × RefArticle)) :
    ∀ (acc : String) (pre : List Char), List.Sublist pre acc.data →
      List.Sublist (pre ++ (ps.map fun p => p.2.url.data).flatten)
        (String.intercalate.go acc "\n" (ps.map refLine)).data := by
  induction ps with
  | nil =>
    intro acc pre h
    simpa [String.intercalate.go] using h
  | cons p ps ih =>
    intro acc pre h
    simp only [List.map_cons, String.intercalate.go, List.flatten_cons]
    rw [← List.append_assoc]
    refine ih _ (pre ++ p.2.url.data) ?_
    simp only [String.data_append]
    rw [List.append_assoc]
    exact List.Sublist.append h
      (List.Sublist.trans (url_sublist_refLine p) (List.sublist_append_right _ _))

theorem refs_urls_sublist (refs : List RefArticle) :
    List.Sublist (refs.map fun r => r.url.data).flatten (refLines refs).data := by
  cases refs with
  | nil => simp [refLines, String.intercalate]
  | cons r rs =>
    unfold refLines
    rw [List.enum_cons, List.map_cons]
    show List.Sublist _ (String.intercalate.go (refLine (0, r)) "\n"
      ((rs.enumFrom 1).map refLine)).data
    have key := go_sublist (rs.enumFrom 1) (refLine (0, r)) r.url.data
      (url_sublist_refLine (0, r))
    have hmap : ((rs.enumFrom 1).map fun p => p.2.url.data) =
        rs.map fun x => x.url.data := by
      conv_rhs => rw [← List.enumFrom_map_snd 1 rs]
      rw [List.map_map]
      rfl
    rw [hmap] at key
    simpa using key

/-- C1, amended: when the generation backend's text does not contain
the substring `references` (case-insensitively), the orchestrator
appends a references block built from the supplied references, whose
URLs occur in it in supply order; when the text does contain
`references`, it is returned unchanged, so the backend's own citation
behaviour is trusted. -/
theorem c1_references_post_validation (refs : List RefArticle) (content : String) :
    (includesSub (toLowerCase content) "references" = false →
      ensureReferences refs content =
        content ++ "\n\n## References\n\n" ++ refLines refs ∧
      List.Sublist (refs.map fun r => r.url.data).flatten
        (ensureReferences refs content).data) ∧
    (includesSub (toLowerCase content) "references" = true →
      ensureReferences refs content = content) := by
  constructor
  · intro h
    have he : ensureReferences refs content =
        content ++ "\n\n## References\n\n" ++ refLines refs := by
      unfold ensureReferences
      rw [h]
      simp
    refine ⟨he, ?_⟩
    rw [he]
    simp only [String.data_append]
    exact List.Sublist.trans (refs_urls_sublist refs) (List.sublist_append_right _ _)
  · intro h
    unfold ensureReferences
    rw [h]
    simp

/-- Counterexample to C1 as stated: with a non-empty reference list,
a backend text that merely mentions the word `references` is returned
untouched, and the final body does not contain the supplied reference
URL at all — the references section is not rebuilt from the supplied
URLs. -/
theorem c1_counterexample :
    ensureReferences [{ url := "https://a.example/blog/x", title := "Ref", content := "c" }]
        "See the references above." = "See the references above." ∧
    includesSub
        (ensureReferences
          [{ url := "https://a.example/blog/x", title := "Ref", content := "c" }]
          "See the references above.")
        "https://a.example/blog/x" = false ∧
    ([{ url := "https://a.example/blog/x", title := "Ref", content := "c" }] :
        List RefArticle) ≠ [] := by
  decide

/-- Witness for the amended C1 at concrete inputs. -/
theorem c1_witness :
    includesSub (toLowerCase "A body with no citation block.") "references" = false ∧
    ensureReferences [{ url := "https://a.example/blog/x", title := "Ref", content := "c" }]
        "A body with no citation block." =
      "A body with no citation block." ++ "\n\n## References\n\n" ++
        refLines [{ url := "https://a.example/blog/x", title := "Ref", content := "c" }] := by
  refine ⟨by decide, ?_⟩
  exact (c1_references_post_validation
    [{ url := "https://a.example/blog/x", title := "Ref", content := "c" }]
    "A body with no citation block." |>.1 (by decide)).1

/-! ## C3: retry policy of the generation backends -/

theorem gemini_rate_limited_run (ra : Nat → LLMResponse)
    (h : ∀ n, ra n = LLMResponse.rateLimited) :
    rewriteWithGoogleGemini ra =
      { result := .error .rateLimited, attempts := 3, delays := [10000, 20000] } := by
  have e2 : rewriteWithGoogleGeminiFrom ra 3 2 =
      { result := .error .rateLimited, attempts := 1, delays := [] } := by
    rw [rewriteWithGoogleGeminiFrom]
    simp [h 2]
  have e1 : rewriteWithGoogleGeminiFrom ra 3 1 =
      { result := .error .rateLimited, attempts := 2, delays := [20000] } := by
    rw [rewriteWithGoogleGeminiFrom]
    simp [h 1, e2]
  have e0 : rewriteWithGoogleGeminiFrom ra 3 0 =
      { result := .error .rateLimited, attempts := 3, delays := [10000, 20000] } := by
    rw [rewriteWithGoogleGeminiFrom]
    simp [h 0, e1]
  exact e0

/-- C3, amended: only the Google Gemini backend retries rate-limit
signals — up to 3 attempts with strictly increasing exponential
backoff delays (10000·2^i ms), giving up after exactly 3 attempts,
and propagating any non-rate-limit failure immediately; the OpenAI and
Ollama backends make exactly one request and propagate every failure,
rate limits included, immediately. -/
theorem c3_retry_policy (ra rb : Nat → LLMResponse)
    (h1 : ∀ n, ra n = LLMResponse.rateLimited)
    (h2 : rb 0 = LLMResponse.otherFailure) :
    (rewriteWithGoogleGemini ra).attempts = 3 ∧
    (rewriteWithGoogleGemini ra).result = .error .rateLimited ∧
    (rewriteWithGoogleGemini ra).delays = [10000, 20000] ∧
    List.Chain' (· < ·) (rewriteWithGoogleGemini ra).delays ∧
    (rewriteWithGoogleGemini rb).attempts = 1 ∧
    (rewriteWithGoogleGemini rb).result = .error .otherFailure ∧
    (∀ responses, (rewriteWithOpenAI responses).attempts = 1) ∧
    (∀ responses, (rewriteWithOllama responses).attempts = 1) := by
  have hb0 : rewriteWithGoogleGeminiFrom rb 3 0 =
      { result := .error .otherFailure, attempts := 1, delays := [] } := by
    rw [rewriteWithGoogleGeminiFrom]
    simp [h2]
  have hb : rewriteWithGoogleGemini rb =
      { result := .error .otherFailure, attempts := 1, delays := [] } := hb0
  rw [gemini_rate_limited_run ra h1, hb]
  refine ⟨rfl, rfl, rfl, ?_, rfl, rfl, ?_, ?_⟩
  · show List.Chain' (· < ·) [10000, 20000]
    simp only [List.chain'_cons, List.chain'_singleton, and_true]
    omega
  · intro responses
    unfold rewriteWithOpenAI
    rcases responses 0 with t | _ | _ <;> rfl
  · intro responses
    unfold rewriteWithOllama
    rcases responses 0 with t | _ | _ <;> rfl

/-- Counterexample to C3 as stated: the OpenAI backend does not retry
a rate-limit signal at all — the call makes exactly one attempt (not
3) and the rate-limit error propagates immediately. -/
theorem c3_counterexample :
    (rewriteWithOpenAI fun _ : Nat => LLMResponse.rateLimited).attempts = 1 ∧
    (rewriteWithOpenAI fun _ : Nat => LLMResponse.rateLimited).result =
      .error .rateLimited ∧
    (rewriteWithOpenAI fun _ : Nat => LLMResponse.rateLimited).attempts ≠ 3 :=
  ⟨rfl, rfl, by decide⟩

/-- Witness for the amended C3 at concrete oracles. -/
theorem c3_witness :
    (∀ n : Nat, (fun _ : Nat => LLMResponse.rateLimited) n = LLMResponse.rateLimited) ∧
    (fun _ : Nat => LLMResponse.otherFailure) 0 = LLMResponse.otherFailure ∧
    (rewriteWithGoogleGemini fun _ : Nat => LLMResponse.rateLimited).attempts = 3 ∧
    (rewriteWithGoogleGemini fun _ : Nat => LLMResponse.rateLimited).delays =
      [10000, 20000] ∧
    (rewriteWithOpenAI fun _ : Nat => LLMResponse.rateLimited).attempts = 1 := by
  have T := c3_retry_policy (fun _ : Nat => LLMResponse.rateLimited)
    (fun _ : Nat => LLMResponse.otherFailure) (fun _ => rfl) rfl
  exact ⟨fun _ => rfl, rfl, T.1, T.2.2.1, T.2.2.2.2.2.2.1 _⟩

/-! ## C2: empty reference list skips the rewrite -/

/-- C2: when no reference article could be scraped, the run invokes no
generation backend (zero backend dispatches), publishes nothing, ends
as a failed attempt (`noRefs`), and leaves the store untouched — in
particular every article's `is_rewritten` flag, so the source article
is picked up again by a future run. -/
theorem c2_skip_when_no_refs (validUrl validDate : String → Bool)
    (db : List StoreArticle) (a : SourceArticle) (searchResults : List String)
    (scrape : String → Option (String × String)) (backend : String → String)
    (h : scrapeReferenceArticles scrape searchResults = []) :
    rewriteLatest validUrl validDate db (some a) searchResults scrape backend =
      { outcome := .noRefs, backendCalls := 0, db := db } := by
  unfold rewriteLatest
  rw [h]
  simp

/-- Witness for C2 at concrete inputs: a search yielding no qualifying
URL leads to the skip outcome with zero backend calls and an unchanged
store. -/
theorem c2_witness :
    scrapeReferenceArticles (fun _ : String => none) [] = [] ∧
    rewriteLatest (fun _ => true) (fun _ => true) []
        (some (⟨1, "T", "C"⟩ : SourceArticle)) [] (fun _ : String => none)
        (fun p : String => p) =
      { outcome := .noRefs, backendCalls := 0, db := [] } := by
  refine ⟨by decide, ?_⟩
  exact c2_skip_when_no_refs (fun _ => true) (fun _ => true) []
    ⟨1, "T", "C"⟩ [] (fun _ => none) (fun p => p) (by decide)

/-! ## C7: store-side effects of creating a rewritten article -/

theorem maxId_mem_le (db : List StoreArticle) (a : StoreArticle) :
    a ∈ db → a.id ≤ maxId db := by
  induction db with
  | nil => intro h; cases h
  | cons b l ih =>
    intro h
    have hm : maxId (b :: l) = max b.id (maxId l) := rfl
    rcases List.mem_cons.1 h with h | h
    · subst h; rw [hm]; exact Nat.le_max_left _ _
    · exact Nat.le_trans (ih h) (hm ▸ Nat.le_max_right _ _)

/-- C7: a validated POST with version `rewritten` and a truthy
`parent_article_id` that references an existing article appends the
new row und flips exactly the parent's `is_rewritten` flag, leaving
every other row (and every other field of the parent) unchanged; a
validated POST with version `original`, or with no
`parent_article_id`, appends the new row and modifies no existing
row. -/
theorem c7_store_side_effects (validUrl validDate : String → Bool)
    (db : List StoreArticle) (r : StoreRequest)
    (hv : validateStore validUrl validDate db r = true) :
    (∀ pid, r.version = "rewritten" → r.parent_article_id = some pid → pid ≠ 0 →
      storePost validUrl validDate db r =
        .ok ((db.map fun a =>
            if a.id = pid then { a with is_rewritten := true } else a) ++
          [newStoreArticle db r], freshId db)) ∧
    (r.version = "original" →
      storePost validUrl validDate db r = .ok (db ++ [newStoreArticle db r], freshId db)) ∧
    (r.parent_article_id = none →
      storePost validUrl validDate db r =
        .ok (db ++ [newStoreArticle db r], freshId db)) := by
  refine ⟨?_, ?_, ?_⟩
  · intro pid hver hpar hpid
    have hex : ∃ a ∈ db, a.id = pid := by
      unfold validateStore at hv
      rw [hpar] at hv
      simp only [Bool.and_eq_true, List.any_eq_true, beq_iff_eq] at hv
      exact hv.1.1.2
    have hlt : pid < freshId db := by
      obtain ⟨a, ha, rfl⟩ := hex
      exact Nat.lt_succ_of_le (maxId_mem_le db a ha)
    unfold storePost
    rw [if_pos hv, hver, hpar]
    have hpid2 : (pid != 0) = true := by simpa using hpid
    simp only [hpid2, if_true, beq_self_eq_true, if_pos]
    rw [List.map_append]
    have hnew : ((newStoreArticle db r).id = pid) = False := by
      simp only [eq_iff_iff, iff_false]
      show ¬freshId db = pid
      omega
    simp [hnew]
  · intro hver
    unfold storePost
    rw [if_pos hv, hver]
    simp
  · intro hpar
    unfold storePost
    rw [if_pos hv, hpar]
    by_cases hver : r.version == "rewritten" <;> simp [hver]

/-- Witness for C7 at concrete inputs. -/
theorem c7_witness :
    validateStore (fun _ => true) (fun _ => true)
      [(⟨1, "Orig", none, "C", none, "original", false, none, [], none⟩ : StoreArticle)]
      (⟨"R", "C2", none, "rewritten", some 1, [], none⟩ : StoreRequest) = true ∧
    storePost (fun _ => true) (fun _ => true)
      [(⟨1, "Orig", none, "C", none, "original", false, none, [], none⟩ : StoreArticle)]
      (⟨"R", "C2", none, "rewritten", some 1, [], none⟩ : StoreRequest) =
      .ok (([(⟨1, "Orig", none, "C", none, "original", false, none, [], none⟩ :
            StoreArticle)].map fun a =>
            if a.id = 1 then { a with is_rewritten := true } else a) ++
        [newStoreArticle
          [(⟨1, "Orig", none, "C", none, "original", false, none, [], none⟩ :
            StoreArticle)]
          (⟨"R", "C2", none, "rewritten", some 1, [], none⟩ : StoreRequest)],
        freshId
          [(⟨1, "Orig", none, "C", none, "original", false, none, [], none⟩ :
            StoreArticle)]) := by
  refine ⟨by decide, ?_⟩
  exact (c7_store_side_effects (fun _ => true) (fun _ => true) _ _ (by decide)).1
    1 rfl rfl (by decide)

/-! ## C9: the rewritten article's title -/

/-- C9: on a successfully published rewrite, the stored table's titles
are exactly the previous titles (the source's included, unmodified)
plus one new row titled with the source title suffixed by
`" (Rewritten)"`. -/
theorem c9_rewritten_title (validUrl validDate : String → Bool)
    (db : List StoreArticle) (a : SourceArticle) (searchResults : List String)
    (scrape : String → Option (String × String)) (backend : String → String)
    (hne : scrapeReferenceArticles scrape searchResults ≠ [])
    (hv : validateStore validUrl validDate db
      (rewriteRequest a (scrapeReferenceArticles scrape searchResults) backend) = true) :
    ((rewriteLatest validUrl validDate db (some a) searchResults scrape backend).db.map
        fun x => x.title) =
      (db.map fun x => x.title) ++ [a.title ++ " (Rewritten)"] := by
  unfold rewriteLatest
  dsimp only
  rw [if_neg hne]
  unfold storePost
  rw [if_pos hv]
  set r := rewriteRequest a (scrapeReferenceArticles scrape searchResults) backend
    with hr
  have hver : (r.version == "rewritten") = true := by rw [hr]; rfl
  have hpar : r.parent_article_id = some a.id := by rw [hr]; rfl
  simp only [hver, if_true, hpar]
  have htitle : (newStoreArticle db r).title = a.title ++ " (Rewritten)" := by
    rw [hr]; rfl
  by_cases hz : (a.id != 0) = true
  · simp only [hz, if_true]
    rw [List.map_append, List.map_append, List.map_map]
    have hcongr : ((fun x => x.title) ∘ fun x : StoreArticle =>
        if x.id = a.id then { x with is_rewritten := true } else x) =
        fun x : StoreArticle => x.title := by
      funext x
      by_cases hx : x.id = a.id <;> simp [Function.comp, hx]
    rw [hcongr]
    simp [htitle]
    split <;> simp [htitle]
  · simp only [hz, if_false]
    rw [List.map_append]
    simp [htitle]

/-- Witness for C9 at concrete inputs. -/
theorem c9_witness :
    scrapeReferenceArticles
        (fun _ : String => some ("RT", String.mk (List.replicate 101 'x')))
        ["https://a.example/blog/x"] ≠ [] ∧
    validateStore (fun _ => true) (fun _ => true)
      [(⟨1, "Orig", none, "C", none, "original", false, none, [], none⟩ : StoreArticle)]
      (rewriteRequest ⟨1, "Orig", "C"⟩
        (scrapeReferenceArticles
          (fun _ : String => some ("RT", String.mk (List.replicate 101 'x')))
          ["https://a.example/blog/x"])
        (fun _ : String => "Generated text with references inside.")) = true ∧
    ((rewriteLatest (fun _ => true) (fun _ => true)
        [(⟨1, "Orig", none, "C", none, "original", false, none, [], none⟩ :
          StoreArticle)]
        (some (⟨1, "Orig", "C"⟩ : SourceArticle)) ["https://a.example/blog/x"]
        (fun _ : String => some ("RT", String.mk (List.replicate 101 'x')))
        (fun _ : String => "Generated text with references inside.")).db.map
      fun x => x.title) = ["Orig", "Orig (Rewritten)"] := by
  refine ⟨by decide, by decide, ?_⟩
  have h := c9_rewritten_title (fun _ => true) (fun _ => true)
    [(⟨1, "Orig", none, "C", none, "original", false, none, [], none⟩ : StoreArticle)]
    ⟨1, "Orig", "C"⟩ ["https://a.example/blog/x"]
    (fun _ : String => some ("RT", String.mk (List.replicate 101 'x')))
    (fun _ : String => "Generated text with references inside.")
    (by decide) (by decide)
  rw [h]
  rfl

/-! ## C4: PageLocator bounds, uniqueness and ordering -/

theorem addFoldl_nodup (target : Nat) :
    ∀ (l acc : List String), acc.Nodup →
      (l.foldl
        (fun a url =>
          if !a.contains url && decide (a.length < target) then a ++ [url] else a)
        acc).Nodup := by
  intro l
  induction l with
  | nil => intro acc h; exact h
  | cons u l ih =>
    intro acc h
    simp only [List.foldl_cons]
    apply ih
    by_cases hc : (!acc.contains u && decide (acc.length < target)) = true
    · rw [if_pos hc]
      simp only [Bool.and_eq_true, Bool.not_eq_true'] at hc
      have hu : u ∉ acc := by simpa using hc.1
      simp [List.nodup_append, h, hu]
    · rw [if_neg hc]
      exact h

theorem addFromPage_nodup (target : Nat) (acc pageArticles : List String)
    (h : acc.Nodup) : (addFromPage target acc pageArticles).Nodup := by
  unfold addFromPage
  by_cases hn : target - acc.length > 0
  · rw [if_pos hn]
    exact addFoldl_nodup target _ acc h
  · rw [if_neg hn]
    exact h

theorem locateLoop_nodup (pages : Nat → List String) (target : Nat) :
    ∀ (p : Nat) (acc : List String), acc.Nodup → (locateLoop pages target p acc).Nodup := by
  intro p
  induction p with
  | zero => intro acc h; exact h
  | succ p ih =>
    intro acc h
    unfold locateLoop
    by_cases h1 : acc.length < target
    · rw [if_pos h1]
      by_cases h2 : pages (p + 1) = []
      · rw [if_pos h2]
        exact ih acc h
      · rw [if_neg h2]
        by_cases h3 : (addFromPage target acc (pages (p + 1))).length < target
        · rw [if_pos h3]
          exact ih _ (addFromPage_nodup target acc _ h)
        · rw [if_neg h3]
          exact addFromPage_nodup target acc _ h
    · rw [if_neg h1]
      exact h

/-- C4: `locateBatch` never returns more than `batchSize` URLs and
never returns duplicates; and on a single-page listing carrying 7
article links with batch size 5 it returns exactly the last 5 links of
the page, in listing order. -/
theorem c4_page_locator :
    (∀ (pages : Nat → List String) (lastPage target : Nat),
      (locateBatch pages lastPage target).length ≤ target ∧
      (locateBatch pages lastPage target).Nodup) ∧
    locateBatch
      (fun _ => ["https://beyondchats.com/blogs/p1/", "https://beyondchats.com/blogs/p2/",
        "https://beyondchats.com/blogs/p3/", "https://beyondchats.com/blogs/p4/",
        "https://beyondchats.com/blogs/p5/", "https://beyondchats.com/blogs/p6/",
        "https://beyondchats.com/blogs/p7/"]) 1 5 =
      ["https://beyondchats.com/blogs/p3/", "https://beyondchats.com/blogs/p4/",
        "https://beyondchats.com/blogs/p5/", "https://beyondchats.com/blogs/p6/",
        "https://beyondchats.com/blogs/p7/"] := by
  constructor
  · intro pages lastPage target
    constructor
    · exact List.length_take_le target _
    · exact List.Nodup.sublist (List.take_sublist target _)
        (locateLoop_nodup pages target lastPage [] List.nodup_nil)
  · decide

/-! ## C6: the title site-name cleanup -/

theorem takeWhile_append_all {p : Char → Bool} (l1 l2 : List Char)
    (h : ∀ c ∈ l1, p c = true) :
    (l1 ++ l2).takeWhile p = l1 ++ l2.takeWhile p := by
  have hself : l1.takeWhile p = l1 := List.takeWhile_eq_self_iff.2 h
  rw [List.takeWhile_append, if_pos (by rw [hself])]

theorem trimChars_append_space (l : List Char) : trimChars (l ++ [' ']) = trimChars l := by
  unfold trimChars
  rw [List.dropWhile_append]
  by_cases he : (l.dropWhile Char.isWhitespace).isEmpty = true
  · rw [if_pos he]
    have h1 : l.dropWhile Char.isWhitespace = [] := by simpa using he
    rw [h1]
    have h2 : List.dropWhile Char.isWhitespace [' '] = [] := by decide
    rw [h2]
  · rw [if_neg he]
    rw [List.reverse_append]
    have h3 : [' '].reverse ++ (l.dropWhile Char.isWhitespace).reverse =
        ' ' :: (l.dropWhile Char.isWhitespace).reverse := rfl
    rw [h3, List.dropWhile_cons, if_pos (by decide)]

theorem rstrip_append_space (l : List Char) :
    (l ++ [' ']).reverse.dropWhile Char.isWhitespace =
      l.reverse.dropWhile Char.isWhitespace := by
  rw [List.reverse_append]
  have h3 : [' '].reverse ++ l.reverse = ' ' :: l.reverse := rfl
  rw [h3, List.dropWhile_cons, if_pos (by decide)]

/-- C6, amended: the fallback cleanup truncates at the first separator,
not at a trailing site-name suffix.  When the title body itself is free
of `|` and `-`, the body survives (JavaScript keeps it up to trimming,
PHP strips the whitespace run before the separator); a hyphen or pipe
inside the body truncates the title there (see the counterexample). -/
theorem c6_title_strip (body site : String)
    (h : (body.data.all fun c => c != '|' && c != '-') = true) :
    stripSiteName (body ++ " - " ++ site) = String.mk (trimChars body.data) ∧
    stripSiteNamePhp (body ++ " - " ++ site) =
      String.mk ((body.data.reverse.dropWhile Char.isWhitespace).reverse) := by
  have hall := List.all_eq_true.1 h
  have hpipe : ∀ c ∈ body.data, (c != '|') = true := by
    intro c hc
    have := hall c hc
    simp only [Bool.and_eq_true] at this
    exact this.1
  have hdash : ∀ c ∈ body.data, (c != '-') = true := by
    intro c hc
    have := hall c hc
    simp only [Bool.and_eq_true] at this
    exact this.2
  have hdata : (body ++ " - " ++ site).data =
      body.data ++ (' ' :: '-' :: ' ' :: site.data) := by
    rw [String.data_append, String.data_append, List.append_assoc]
    rw [show (" - " : String).data = [' ', '-', ' '] from by decide]
    rfl
  constructor
  · unfold stripSiteName
    rw [hdata]
    rw [takeWhile_append_all _ _ hpipe]
    have h1 : List.takeWhile (fun c => c != '|') (' ' :: '-' :: ' ' :: site.data) =
        ' ' :: '-' :: ' ' :: List.takeWhile (fun c => c != '|') site.data := by
      rw [List.takeWhile_cons, if_pos (by decide), List.takeWhile_cons,
        if_pos (by decide), List.takeWhile_cons, if_pos (by decide)]
    rw [h1]
    have h2 : body.data ++
        (' ' :: '-' :: ' ' :: List.takeWhile (fun c => c != '|') site.data) =
        (body.data ++ [' ']) ++
          ('-' :: ' ' :: List.takeWhile (fun c => c != '|') site.data) := by
      rw [List.append_assoc]
      rfl
    rw [h2]
    have hsp : ∀ c ∈ body.data ++ [' '], (c != '-') = true := by
      intro c hc
      rcases List.mem_append.1 hc with hc | hc
      · exact hdash c hc
      · simp only [List.mem_singleton] at hc
        subst hc
        decide
    rw [takeWhile_append_all _ _ hsp]
    rw [List.takeWhile_cons, if_neg (by decide)]
    rw [List.append_nil]
    rw [trimChars_append_space]
  · unfold stripSiteNamePhp
    rw [hdata]
    have hboth : ∀ c ∈ body.data, (c != '-' && c != '|') = true := by
      intro c hc
      simp only [Bool.and_eq_true]
      exact ⟨hdash c hc, hpipe c hc⟩
    rw [takeWhile_append_all _ _ hboth]
    have h1 : List.takeWhile (fun c => c != '-' && c != '|')
        (' ' :: '-' :: ' ' :: site.data) = [' '] := by
      rw [List.takeWhile_cons, if_pos (by decide), List.takeWhile_cons,
        if_neg (by decide)]
    rw [h1, rstrip_append_space]

/-- Counterexample to C6 as stated: a page title whose body contains a
hyphen is truncated at that first hyphen — the text preceding the
trailing " - Site Name" separator is not preserved, in both the
JavaScript and the PHP extractor. -/
theorem c6_counterexample :
    stripSiteName "State-of-the-art Chatbots - BeyondChats" = "State" ∧
    stripSiteName "State-of-the-art Chatbots - BeyondChats" ≠
      "State-of-the-art Chatbots" ∧
    stripSiteNamePhp "State-of-the-art Chatbots - BeyondChats" = "State" ∧
    stripSiteNamePhp "State-of-the-art Chatbots - BeyondChats" ≠
      "State-of-the-art Chatbots" := by
  decide

/-- Witness for the amended C6 at concrete inputs. -/
theorem c6_witness :
    (("AI Chatbots" : String).data.all fun c => c != '|' && c != '-') = true ∧
    stripSiteName ("AI Chatbots" ++ " - " ++ "BeyondChats") =
      String.mk (trimChars ("AI Chatbots" : String).data) ∧
    stripSiteNamePhp ("AI Chatbots" ++ " - " ++ "BeyondChats") =
      String.mk ((("AI Chatbots" : String).data.reverse.dropWhile
        Char.isWhitespace).reverse) := by
  refine ⟨by decide, ?_, ?_⟩
  · exact (c6_title_strip "AI Chatbots" "BeyondChats" (by decide)).1
  · exact (c6_title_strip "AI Chatbots" "BeyondChats" (by decide)).2

/-! ## C5: search-provider contract -/

theorem guarded_foldl_length (f : List String → String → List String)
    (hf : ∀ acc x, acc.length ≥ 2 → f acc x = acc)
    (hg : ∀ acc x, (f acc x).length ≤ acc.length + 1) :
    ∀ (l acc : List String), acc.length ≤ 2 → (l.foldl f acc).length ≤ 2 := by
  intro l
  induction l with
  | nil => intro acc h; exact h
  | cons x l ih =>
    intro acc h
    simp only [List.foldl_cons]
    apply ih
    by_cases h2 : acc.length ≥ 2
    · rw [hf acc x h2]; omega
    · have := hg acc x; omega

theorem guarded_foldl_mem (f : List String → String → List String) (Q : String → Prop)
    (hf : ∀ acc x u, u ∈ f acc x → u ∈ acc ∨ Q u) :
    ∀ (l acc : List String) (u : String), u ∈ l.foldl f acc → u ∈ acc ∨ Q u := by
  intro l
  induction l with
  | nil => intro acc u h; exact Or.inl h
  | cons x l ih =>
    intro acc u h
    simp only [List.foldl_cons] at h
    rcases ih _ u h with h2 | h2
    · exact hf acc x u h2
    · exact Or.inr h2

theorem ddg_pass_mem (decodeRedirect : String → String) (hrefs acc : List String)
    (u : String) (h : u ∈ ddgSelectorPass decodeRedirect acc hrefs) :
    u ∈ acc ∨ ddgQualifies u = true := by
  refine guarded_foldl_mem _ (fun v => ddgQualifies v = true) ?_ hrefs acc u h
  intro a x v hv
  dsimp only at hv
  split at hv
  · exact Or.inl hv
  · split at hv
    · exact Or.inl hv
    · split at hv
      · rcases List.mem_append.1 hv with hv2 | hv2
        · exact Or.inl hv2
        · simp only [List.mem_singleton] at hv2
          subst hv2
          rename_i hcond
          simp only [Bool.and_eq_true] at hcond
          exact Or.inr hcond.1
      · exact Or.inl hv

theorem ddg_fallback_mem (decodeRedirect : String → String) (links acc : List String)
    (u : String) (h : u ∈ ddgFallbackPass decodeRedirect acc links) :
    u ∈ acc ∨ ddgResultQualifies u = true := by
  refine guarded_foldl_mem _ (fun v => ddgResultQualifies v = true) ?_ links acc u h
  intro a x v hv
  dsimp only at hv
  split at hv
  · exact Or.inl hv
  · split at hv
    · exact Or.inl hv
    · split at hv
      · rcases List.mem_append.1 hv with hv2 | hv2
        · exact Or.inl hv2
        · simp only [List.mem_singleton] at hv2
          subst hv2
          rename_i hcond
          simp only [Bool.and_eq_true] at hcond
          exact Or.inr hcond.1
      · exact Or.inl hv

theorem ddg_cascade_mem (decodeRedirect : String → String) :
    ∀ (sels : List (List String)) (acc : List String) (u : String),
      u ∈ ddgCascade decodeRedirect sels acc → u ∈ acc ∨ ddgQualifies u = true := by
  intro sels
  induction sels with
  | nil => intro acc u h; exact Or.inl h
  | cons sel rest ih =>
    intro acc u h
    unfold ddgCascade at h
    by_cases h2 : (ddgSelectorPass decodeRedirect acc sel).length ≥ 2
    · rw [if_pos h2] at h
      exact ddg_pass_mem decodeRedirect sel acc u h
    · rw [if_neg h2] at h
      rcases ih _ u h with h3 | h3
      · exact ddg_pass_mem decodeRedirect sel acc u h3
      · exact Or.inr h3

/-- C5, amended: both strategies return at most `maxResults = 2` URLs,
order-preserved and filtered (SerpAPI excludes the source domain,
`google.com`, `youtube.com` and non-blog-shaped URLs; the DuckDuckGo
passes exclude the source domain and `duckduckgo.com`).  Within the
scraped fallback, the selector cascade stops only once at least 2
qualifying URLs are collected: a selector that has yielded a single
hit does not stop it (later selectors' hits are merged, deduplicated,
until 2 are reached — see the counterexample), while a selector
reaching 2 hits ends the cascade. -/
theorem c5_search_contract :
    (∀ links : List String, (searchWithSerpAPI links).length ≤ 2) ∧
    (∀ (links : List String) (u : String), u ∈ searchWithSerpAPI links →
      isBeyondChatsUrl u = false ∧ includesSub u "google.com" = false ∧
      includesSub u "youtube.com" = false ∧
      (includesSub u "/blog/" || includesSub u "/article/" ||
        includesSub u "/post/") = true) ∧
    (∀ (decodeRedirect : String → String) (sels : List (List String))
      (fb : List String), (searchWithDuckDuckGo decodeRedirect sels fb).length ≤ 2) ∧
    (∀ (decodeRedirect : String → String) (sels : List (List String))
      (fb : List String) (u : String), u ∈ searchWithDuckDuckGo decodeRedirect sels fb →
      isBeyondChatsUrl u = false ∧ includesSub u "duckduckgo.com" = false) ∧
    (∀ (decodeRedirect : String → String) (s1 : List String)
      (rest : List (List String)) (fb : List String),
      2 ≤ (ddgSelectorPass decodeRedirect [] s1).length →
      searchWithDuckDuckGo decodeRedirect (s1 :: rest) fb =
        (ddgSelectorPass decodeRedirect [] s1).take 2) := by
  refine ⟨?_, ?_, ?_, ?_, ?_⟩
  · intro links
    refine guarded_foldl_length _ ?_ ?_ links [] (by simp)
    · intro acc x h
      rw [if_pos h]
    · intro acc x
      split
      · omega
      · split
        · simp
        · omega
  · intro links u h
    have key := guarded_foldl_mem _
      (fun v => (v != "" && !isBeyondChatsUrl v && !includesSub v "google.com" &&
        !includesSub v "youtube.com" &&
        (includesSub v "/blog/" || includesSub v "/article/" ||
          includesSub v "/post/")) = true) ?_ links [] u h
    · rcases key with key | key
      · cases key
      · simp only [Bool.and_eq_true, Bool.not_eq_true'] at key
        exact ⟨key.1.1.1.2, key.1.1.2, key.1.2, key.2⟩
    · intro a x v hv
      split at hv
      · exact Or.inl hv
      · split at hv
        · rcases List.mem_append.1 hv with hv2 | hv2
          · exact Or.inl hv2
          · simp only [List.mem_singleton] at hv2
            subst hv2
            rename_i hcond
            exact Or.inr hcond
        · exact Or.inl hv
  · intro decodeRedirect sels fb
    unfold searchWithDuckDuckGo
    exact List.length_take_le 2 _
  · intro decodeRedirect sels fb u h
    unfold searchWithDuckDuckGo at h
    have h2 := List.mem_of_mem_take h
    have key : ddgQualifies u = true ∨ ddgResultQualifies u = true := by
      by_cases hlen : (ddgCascade decodeRedirect sels []).length < 2
      · rw [if_pos hlen] at h2
        rcases ddg_fallback_mem decodeRedirect fb _ u h2 with h3 | h3
        · rcases ddg_cascade_mem decodeRedirect sels [] u h3 with h4 | h4
          · cases h4
          · exact Or.inl h4
        · exact Or.inr h3
      · rw [if_neg hlen] at h2
        rcases ddg_cascade_mem decodeRedirect sels [] u h2 with h4 | h4
        · cases h4
        · exact Or.inl h4
    rcases key with key | key
    · unfold ddgQualifies at key
      simp only [Bool.and_eq_true, Bool.not_eq_true'] at key
      exact ⟨key.1.1.1, key.1.1.2⟩
    · unfold ddgResultQualifies at key
      simp only [Bool.and_eq_true, Bool.not_eq_true'] at key
      exact ⟨key.1.1, key.1.2⟩
  · intro decodeRedirect s1 rest fb h
    unfold searchWithDuckDuckGo ddgCascade
    dsimp only
    rw [if_pos h]
    rw [if_neg (by omega)]

/-- Counterexample to C5 as stated: the first selector yields exactly
one qualifying hit, yet the second selector's result is merged into
the returned sequence. -/
theorem c5_counterexample :
    searchWithDuckDuckGo (fun s => s)
        [["https://a.example/blog/x"], ["https://b.example/blog/y"]] [] =
      ["https://a.example/blog/x", "https://b.example/blog/y"] ∧
    (ddgSelectorPass (fun s => s) [] ["https://a.example/blog/x"]).length = 1 ∧
    ("https://b.example/blog/y" : String) ≠ "https://a.example/blog/x" := by
  decide

/-- Witness for the amended C5 at concrete inputs. -/
theorem c5_witness :
    (searchWithSerpAPI ["https://a.example/blog/1", "https://b.example/blog/2",
      "https://c.example/blog/3"]).length ≤ 2 ∧
    ("https://a.example/blog/1" ∈ searchWithSerpAPI ["https://a.example/blog/1",
      "https://b.example/blog/2", "https://c.example/blog/3"]) ∧
    isBeyondChatsUrl "https://a.example/blog/1" = false ∧
    2 ≤ (ddgSelectorPass (fun s => s) []
      ["https://a.example/blog/x", "https://b.example/blog/y"]).length ∧
    searchWithDuckDuckGo (fun s => s)
        [["https://a.example/blog/x", "https://b.example/blog/y"], ["z"]] [] =
      (ddgSelectorPass (fun s => s) []
        ["https://a.example/blog/x", "https://b.example/blog/y"]).take 2 := by
  refine ⟨?_, ?_, ?_, ?_, ?_⟩
  · exact c5_search_contract.1 ["https://a.example/blog/1", "https://b.example/blog/2",
      "https://c.example/blog/3"]
  · decide
  · exact (c5_search_contract.2.1 ["https://a.example/blog/1",
      "https://b.example/blog/2", "https://c.example/blog/3"]
      "https://a.example/blog/1" (by decide)).1
  · decide
  · exact c5_search_contract.2.2.2.2 (fun s => s)
      ["https://a.example/blog/x", "https://b.example/blog/y"] [["z"]] []
      (by decide)

/-! ## C8: idempotence of the acquisition job

First, the slug generator always produces an unused slug (the PHP loop
runs until the candidate is free; the bounded search here provably
reaches a free candidate because a candidate whose numeral outgrows
every taken slug cannot collide). -/

theorem maxStrLen_mem : ∀ (l : List String) (s : String), s ∈ l → s.length ≤ maxStrLen l := by
  intro l
  induction l with
  | nil => intro s h; cases h
  | cons a l ih =>
    intro s h
    have hm : maxStrLen (a :: l) = max a.length (maxStrLen l) := rfl
    rcases List.mem_cons.1 h with h | h
    · subst h; rw [hm]; exact Nat.le_max_left _ _
    · exact Nat.le_trans (ih s h) (hm ▸ Nat.le_max_right _ _)

theorem toDigitsCore_fuel_eq (b : Nat) (hb : 2 ≤ b) :
    ∀ n, ∀ (f g : Nat) (l : List Char), n < f → n < g →
      Nat.toDigitsCore b f n l = Nat.toDigitsCore b g n l := by
  intro n
  induction n using Nat.strong_induction_on with
  | _ n IH =>
    intro f g l hf hg
    obtain ⟨fp, rfl⟩ : ∃ m, f = m + 1 := ⟨f - 1, by omega⟩
    obtain ⟨gp, rfl⟩ : ∃ m, g = m + 1 := ⟨g - 1, by omega⟩
    simp only [Nat.toDigitsCore]
    by_cases h0 : n / b = 0
    · rw [if_pos h0, if_pos h0]
    · rw [if_neg h0, if_neg h0]
      have hn : n ≠ 0 := by
        intro h
        rw [h, Nat.zero_div] at h0
        exact h0 rfl
      have hlt : n / b < n := Nat.div_lt_self (Nat.pos_of_ne_zero hn) (by omega)
      exact IH (n / b) hlt _ _ _ (by omega) (by omega)

theorem asString_length (l : List Char) : (List.asString l).length = l.length := by
  simp [String.length, List.asString]

theorem repr_pow_length : ∀ (k : Nat), (Nat.repr (10 ^ k)).length = k + 1 := by
  intro k
  induction k with
  | zero => decide
  | succ k ih =>
    have hpos : 0 < (10 : Nat) ^ k := pow_pos (by norm_num) k
    have hlt : (10 : Nat) ^ k < 10 ^ (k + 1) := by
      rw [pow_succ]; omega
    have hdiv : (10 : Nat) ^ (k + 1) / 10 = 10 ^ k := by
      rw [pow_succ]; exact Nat.mul_div_cancel _ (by norm_num)
    have hne : ¬ ((10 : Nat) ^ (k + 1) / 10 = 0) := by
      rw [hdiv]; omega
    have h1 : Nat.repr (10 ^ (k + 1)) =
        (Nat.toDigitsCore 10 (10 ^ (k + 1) + 1) (10 ^ (k + 1)) []).asString := rfl
    have h2 : Nat.toDigitsCore 10 (10 ^ (k + 1) + 1) (10 ^ (k + 1)) [] =
        Nat.toDigitsCore 10 (10 ^ (k + 1)) (10 ^ (k + 1) / 10)
          [Nat.digitChar (10 ^ (k + 1) % 10)] := by
      simp only [Nat.toDigitsCore]
      rw [if_neg hne]
    have h3 : Nat.toDigitsCore 10 (10 ^ (k + 1)) (10 ^ k) [] =
        Nat.toDigitsCore 10 (10 ^ k + 1) (10 ^ k) [] :=
      toDigitsCore_fuel_eq 10 (by norm_num) (10 ^ k) _ _ [] hlt (by omega)
    rw [h1, asString_length, h2, hdiv,
      Nat.toDigitsCore_lens_eq 10 (10 ^ (k + 1)) (10 ^ k) _ [], h3]
    have h4 : (Nat.toDigitsCore 10 (10 ^ k + 1) (10 ^ k) []).length =
        (Nat.repr (10 ^ k)).length := (asString_length _).symm
    rw [h4, ih]

theorem slugCandidate_big_not_mem (taken : List String) (base : String) :
    slugCandidate base (10 ^ maxStrLen taken) ∉ taken := by
  intro hmem
  have hlen := maxStrLen_mem taken _ hmem
  have hpos : 0 < (10 : Nat) ^ maxStrLen taken := pow_pos (by norm_num) _
  have hc : slugCandidate base (10 ^ maxStrLen taken) =
      base ++ "-" ++ Nat.repr (10 ^ maxStrLen taken) := by
    cases hE : (10 : Nat) ^ maxStrLen taken with
    | zero => omega
    | succ m => rfl
  rw [hc, String.length_append, String.length_append, repr_pow_length] at hlen
  have hdash : ("-" : String).length = 1 := by decide
  omega

theorem firstFreeFrom_free (taken : List String) (base : String) :
    ∀ (fuel n : Nat), (∃ k, k ≤ fuel ∧ slugCandidate base (n + k) ∉ taken) →
      slugCandidate base (firstFreeFrom taken base n fuel) ∉ taken := by
  intro fuel
  induction fuel with
  | zero =>
    intro n h
    obtain ⟨k, hk, hfree⟩ := h
    have hk0 : k = 0 := by omega
    subst hk0
    simpa using hfree
  | succ fuel ih =>
    intro n h
    unfold firstFreeFrom
    by_cases hmem : slugCandidate base n ∈ taken
    · rw [if_pos hmem]
      obtain ⟨k, hk, hfree⟩ := h
      cases k with
      | zero => exact absurd hmem (by simpa using hfree)
      | succ k =>
        apply ih (n + 1)
        refine ⟨k, by omega, ?_⟩
        rw [show n + 1 + k = n + (k + 1) from by omega]
        exact hfree
    · rw [if_neg hmem]
      exact hmem

/-- The slug returned by `generateUniqueSlug` is never among the taken
slugs — the model's bounded search provably reproduces the PHP loop's
postcondition. -/
theorem generateUniqueSlug_fresh (taken : List String) (base : String) :
    generateUniqueSlug taken base ∉ taken := by
  unfold generateUniqueSlug
  apply firstFreeFrom_free
  exact ⟨10 ^ maxStrLen taken, by omega, by
    simpa using slugCandidate_big_not_mem taken base⟩

theorem hasSourceUrl_append (db l : List StoreArticle) (u : String) :
    hasSourceUrl (db ++ l) u = (hasSourceUrl db u || hasSourceUrl l u) := by
  unfold hasSourceUrl
  exact List.any_append

theorem acquireStep_preserves (slugify : String → String) (nowTime : String)
    (scrape : String → Option ScrapedData) (st : List StoreArticle × Nat × Nat)
    (url u : String) (h : hasSourceUrl st.1 u = true) :
    hasSourceUrl (acquireStep slugify nowTime scrape st url).1 u = true := by
  rcases st with ⟨db, s, k⟩
  dsimp only [acquireStep] at h ⊢
  by_cases h1 : hasSourceUrl db url = true
  · rw [if_pos h1]; exact h
  · rw [if_neg h1]
    rcases hscr : scrape url with _ | d
    · simp only [hscr]; exact h
    · simp only [hscr]
      split
      · exact h
      · rw [hasSourceUrl_append]
        simp [h]

theorem acquireStep_covers (slugify : String → String) (nowTime : String)
    (scrape : String → Option ScrapedData) (st : List StoreArticle × Nat × Nat)
    (url : String) :
    hasSourceUrl (acquireStep slugify nowTime scrape st url).1 url = true ∨
      scrape url = none := by
  rcases st with ⟨db, s, k⟩
  dsimp only [acquireStep]
  by_cases h1 : hasSourceUrl db url = true
  · rw [if_pos h1]; exact Or.inl h1
  · rw [if_neg h1]
    rcases hscr : scrape url with _ | d
    · exact Or.inr rfl
    · simp only [hscr]
      by_cases h2 : (db.any fun a => a.slug ==
          some (generateUniqueSlug (db.filterMap fun a => a.slug)
            (slugify d.title))) = true
      · exfalso
        simp only [List.any_eq_true, beq_iff_eq] at h2
        obtain ⟨a, ha, haslug⟩ := h2
        exact generateUniqueSlug_fresh (db.filterMap fun a => a.slug) (slugify d.title)
          (List.mem_filterMap.2 ⟨a, ha, haslug⟩)
      · rw [if_neg h2]
        refine Or.inl ?_
        rw [hasSourceUrl_append]
        unfold hasSourceUrl
        simp

theorem acquireFold_preserves (slugify : String → String) (nowTime : String)
    (scrape : String → Option ScrapedData) :
    ∀ (urls : List String) (st : List StoreArticle × Nat × Nat) (u : String),
      hasSourceUrl st.1 u = true →
      hasSourceUrl ((urls.foldl (acquireStep slugify nowTime scrape) st).1) u = true := by
  intro urls
  induction urls with
  | nil => intro st u h; exact h
  | cons x l ih =>
    intro st u h
    simp only [List.foldl_cons]
    exact ih _ u (acquireStep_preserves slugify nowTime scrape st x u h)

theorem acquireFold_covers (slugify : String → String) (nowTime : String)
    (scrape : String → Option ScrapedData) :
    ∀ (urls : List String) (st : List StoreArticle × Nat × Nat) (u : String),
      u ∈ urls →
      hasSourceUrl ((urls.foldl (acquireStep slugify nowTime scrape) st).1) u = true ∨
        scrape u = none := by
  intro urls
  induction urls with
  | nil => intro st u h; cases h
  | cons x l ih =>
    intro st u h
    rcases List.mem_cons.1 h with h | h
    · subst h
      rcases acquireStep_covers slugify nowTime scrape st u with h2 | h2
      · left
        simp only [List.foldl_cons]
        exact acquireFold_preserves slugify nowTime scrape l _ u h2
      · exact Or.inr h2
    · simp only [List.foldl_cons]
      exact ih _ u h

theorem acquireFold_fixed (slugify : String → String) (nowTime : String)
    (scrape : String → Option ScrapedData) (db1 : List StoreArticle) :
    ∀ (urls : List String) (s k : Nat),
      (∀ u ∈ urls, hasSourceUrl db1 u = true ∨ scrape u = none) →
      ∃ k2, urls.foldl (acquireStep slugify nowTime scrape) (db1, s, k) = (db1, s, k2) ∧
        ((∀ u ∈ urls, scrape u ≠ none) → k2 = k + urls.length) := by
  intro urls
  induction urls with
  | nil => intro s k _; exact ⟨k, rfl, fun _ => by simp⟩
  | cons x l ih =>
    intro s k h
    have hx := h x (List.mem_cons_self x l)
    by_cases h1 : hasSourceUrl db1 x = true
    · have hstep : acquireStep slugify nowTime scrape (db1, s, k) x = (db1, s, k + 1) := by
        dsimp only [acquireStep]
        rw [if_pos h1]
      obtain ⟨k2, heq, himp⟩ := ih s (k + 1) (fun u hu => h u (List.mem_cons_of_mem x hu))
      refine ⟨k2, ?_, ?_⟩
      · simp only [List.foldl_cons, hstep]
        exact heq
      · intro hall
        have h3 := himp (fun u hu => hall u (List.mem_cons_of_mem x hu))
        rw [h3, List.length_cons]
        omega
    · have hnone : scrape x = none := by
        rcases hx with hx | hx
        · exact absurd hx h1
        · exact hx
      have hstep : acquireStep slugify nowTime scrape (db1, s, k) x = (db1, s, k) := by
        dsimp only [acquireStep]
        rw [if_neg h1, hnone]
      obtain ⟨k2, heq, himp⟩ := ih s k (fun u hu => h u (List.mem_cons_of_mem x hu))
      refine ⟨k2, ?_, ?_⟩
      · simp only [List.foldl_cons, hstep]
        exact heq
      · intro hall
        exact absurd hnone (hall x (List.mem_cons_self x l))

/-- C8: running the acquisition job a second time against an unchanged
listing and unchanged pages stores zero new articles — the stored table
is exactly the table after the first run; and when every candidate URL
scrapes successfully, every candidate of the second run is skipped as a
`source_url` duplicate (the skip counter equals the batch size). -/
theorem c8_acquisition_idempotent (slugify : String → String) (nowTime : String)
    (pages : Nat → List String) (lastPage : Nat) (db : List StoreArticle)
    (scrape : String → Option ScrapedData) :
    (acquisitionJob slugify nowTime pages lastPage
        (acquisitionJob slugify nowTime pages lastPage db scrape).1 scrape).1 =
      (acquisitionJob slugify nowTime pages lastPage db scrape).1 ∧
    (acquisitionJob slugify nowTime pages lastPage
        (acquisitionJob slugify nowTime pages lastPage db scrape).1 scrape).2.1 = 0 ∧
    ((∀ u ∈ locateBatch pages lastPage 5, scrape u ≠ none) →
      (acquisitionJob slugify nowTime pages lastPage
          (acquisitionJob slugify nowTime pages lastPage db scrape).1 scrape).2.2 =
        (locateBatch pages lastPage 5).length) := by
  have hcov : ∀ u ∈ locateBatch pages lastPage 5,
      hasSourceUrl (acquisitionJob slugify nowTime pages lastPage db scrape).1 u = true ∨
        scrape u = none := by
    intro u hu
    exact acquireFold_covers slugify nowTime scrape (locateBatch pages lastPage 5)
      (db, 0, 0) u hu
  obtain ⟨k2, heq, himp⟩ := acquireFold_fixed slugify nowTime scrape
    (acquisitionJob slugify nowTime pages lastPage db scrape).1
    (locateBatch pages lastPage 5) 0 0 hcov
  have hsecond : acquisitionJob slugify nowTime pages lastPage
      (acquisitionJob slugify nowTime pages lastPage db scrape).1 scrape =
      ((acquisitionJob slugify nowTime pages lastPage db scrape).1, 0, k2) := heq
  refine ⟨?_, ?_, ?_⟩
  · rw [hsecond]
  · rw [hsecond]
  · intro hall
    rw [hsecond]
    have h3 := himp hall
    simpa using h3

/-- Witness for C8 at concrete inputs. -/
theorem c8_witness :
    (∀ u ∈ locateBatch (fun _ => ["https://beyondchats.com/blogs/a/"]) 1 5,
      (fun _ : String => some (⟨"T", "C", none⟩ : ScrapedData)) u ≠ none) ∧
    (acquisitionJob (fun s => s) "2025-01-01 00:00:00"
        (fun _ => ["https://beyondchats.com/blogs/a/"]) 1
        (acquisitionJob (fun s => s) "2025-01-01 00:00:00"
          (fun _ => ["https://beyondchats.com/blogs/a/"]) 1 []
          (fun _ : String => some (⟨"T", "C", none⟩ : ScrapedData))).1
        (fun _ : String => some (⟨"T", "C", none⟩ : ScrapedData))).2.2 =
      (locateBatch (fun _ => ["https://beyondchats.com/blogs/a/"]) 1 5).length := by
  refine ⟨?_, ?_⟩
  · intro u _
    simp
  · exact (c8_acquisition_idempotent (fun s => s) "2025-01-01 00:00:00"
      (fun _ => ["https://beyondchats.com/blogs/a/"]) 1 []
      (fun _ : String => some (⟨"T", "C", none⟩ : ScrapedData))).2.2
      (by intro u _; simp)

end BlogPipeline
